import Mathlib

/-!
Verification of the Livia message-processing core.

Shallow embedding of the Livia Slack-assistant repository: the guardrail
verdict policy (`agent/guardrails.py`), the keyword-based integration router
(`tools/mcp/zapier_mcps.py`), the streaming agent processor
(`agent/processor.py`), the orchestrator retry/backoff and long-message
splitting (`server/message_processor.py`), the event dedup logic
(`server/event_handlers.py`) and the context-limit accounting.

Python strings are modelled as Lean `String`/`List Char` (one element per
code point, matching Python `len` and slicing); Python dicts holding fixed
keys are modelled as structures; the external agent runtime is modelled as
an explicit stream of events with an explicit termination marker.
-/

namespace Livia

/-- Substring containment, modelling the Python `pat in s` test on `str`. -/
def strContains (s pat : String) : Bool :=
  decide (pat.toList <:+: s.toList)

/-- Models Python `str.lower()` (character-wise lowercasing). -/
def pyLower (s : String) : String :=
  String.mk (s.toList.map Char.toLower)

/-! ## Guardrail verdict (`agent/guardrails.py`) -/

/-- Embeds the pydantic model `ProfessionalContentOutput`
(`agent/guardrails.py` lines 19-29).  The float `confidence_score` is
modelled as a rational. -/
structure ProfessionalContentOutput where
  is_inappropriate : Bool
  category : String
  reasoning : String
  confidence_score : ℚ

/-- Embeds the tripwire decision of `professional_content_guardrail`
(`agent/guardrails.py` line 119):
`tripwire_triggered = analysis.is_inappropriate and analysis.confidence_score > 0.7`. -/
def tripwire_triggered (analysis : ProfessionalContentOutput) : Bool :=
  analysis.is_inappropriate && decide ((7 : ℚ)/10 < analysis.confidence_score)

/-! ## Integration keyword router (`tools/mcp/zapier_mcps.py`) -/

/-- Embeds the `keywords` lists of the `ZAPIER_MCPS` table
(`tools/mcp/zapier_mcps.py` lines 6-91), keyed by integration name. -/
def ZAPIER_MCPS_keywords : List (String × List String) :=
  [("google_drive", ["google drive", "drive", "gdrive"]),
   ("mcpEverhour", ["everhour"]),
   ("mcpGmail", ["gmail"]),
   ("mcpAsana", ["asana"]),
   ("mcpGoogleCalendar", ["calendar"]),
   ("mcpGoogleDocs", ["docs"]),
   ("mcpGoogleSheets", ["sheets"]),
   ("mcpSlack", ["slack"])]

/-- Embeds `PRIORITY_ORDER` (`tools/mcp/zapier_mcps.py` lines 82-91). -/
def PRIORITY_ORDER : List String :=
  ["google_drive", "mcpEverhour", "mcpGmail", "mcpAsana",
   "mcpGoogleCalendar", "mcpGoogleDocs", "mcpGoogleSheets", "mcpSlack"]

/-- Keyword list of one integration in the `ZAPIER_MCPS` table. -/
def keywordsOf (name : String) : List String :=
  match ZAPIER_MCPS_keywords.lookup name with
  | some ks => ks
  | none => []

/-- Embeds `get_mcp_by_keywords` (`tools/mcp/zapier_mcps.py` lines 93-104):
lowercase the message, walk `PRIORITY_ORDER`, and return the first
integration one of whose keywords occurs in the lowered message. -/
def get_mcp_by_keywords (message : String) : Option String :=
  PRIORITY_ORDER.find? fun mcp_name =>
    (keywordsOf mcp_name).any fun keyword =>
      strContains (pyLower message) keyword

/-! ## Streaming agent processor (`agent/processor.py`, `process_message`) -/

/-- Payload of a `raw_response_event` (`agent/processor.py` lines 135-145).
`textDelta` models `event.data` being a `ResponseTextDeltaEvent`; `otherDelta`
models the `hasattr` fallback for other delta-carrying events; `noDelta`
models raw events without a delta attribute.  The truthiness test
`and event.data.delta` (empty deltas skipped) is applied in the fold. -/
inductive RawData where
  | textDelta (delta : String)
  | otherDelta (delta : String)
  | noDelta
deriving DecidableEq

/-- Payload of a `run_item_stream_event` (`agent/processor.py` lines 146-175):
`event.item.type` is one of `tool_call_item`, `file_search_call`,
`tool_call_output_item`, or something else. -/
inductive RunItem where
  | toolCallItem (name : String) (arguments : String)
  | fileSearchCall
  | toolCallOutputItem (output : Option String)
  | otherItem
deriving DecidableEq

/-- One event yielded by `result.stream_events()` (`agent/processor.py`
line 134), discriminated on `event.type`. -/
inductive StreamEvent where
  | rawResponseEvent (d : RawData)
  | runItemStreamEvent (it : RunItem)
  | otherEvent
deriving DecidableEq

/-- One entry of the `tool_calls` list (`agent/processor.py` lines 152-156
and 162-175): the dict with keys `tool_name`, `arguments`, `type`, and the
`output` key added on completion.  `ttype` embeds the dict key `type`. -/
structure ToolCall where
  tool_name : String
  arguments : String
  ttype : String
  output : Option String
deriving DecidableEq

/-- One invocation of `stream_callback(delta_text, full_response, tool_calls)`
(`agent/processor.py` lines 140, 145, 158, 168). -/
structure Emission where
  delta : String
  full_text : String
  tool_calls : List ToolCall
deriving DecidableEq

/-- The `token_usage` dict (`agent/processor.py` lines 130, 190, 209). -/
structure TokenUsage where
  input : Nat
  output : Nat
  total : Nat
deriving DecidableEq

/-- The structured dict returned by `process_message` (`agent/processor.py`
lines 127-131, 187-191, 206-210). -/
structure AgentResponse where
  text : String
  tools : List ToolCall
  token_usage : TokenUsage
deriving DecidableEq

/-- Mutable state of the streaming loop (`agent/processor.py` lines 117-118),
extended with the log of callback invocations (the observable stream). -/
structure StreamState where
  full_response : String
  tool_calls : List ToolCall
  emissions : List Emission
deriving DecidableEq

/-- Initial loop state: `full_response = ""`, `tool_calls = []`, nothing
emitted yet. -/
def initialStreamState : StreamState :=
  { full_response := "", tool_calls := [], emissions := [] }

/-- Body of the `async for event in result.stream_events()` loop
(`agent/processor.py` lines 134-175), one event at a time. -/
def processStreamEvent (st : StreamState) (e : StreamEvent) : StreamState :=
  match e with
  | .rawResponseEvent (.textDelta d) =>
      if d = "" then st
      else
        let full := st.full_response ++ d
        { st with full_response := full,
                  emissions := st.emissions ++ [⟨d, full, st.tool_calls⟩] }
  | .rawResponseEvent (.otherDelta d) =>
      if d = "" then st
      else
        let full := st.full_response ++ d
        { st with full_response := full,
                  emissions := st.emissions ++ [⟨d, full, st.tool_calls⟩] }
  | .rawResponseEvent .noDelta => st
  | .runItemStreamEvent (.toolCallItem name args) =>
      let tc := st.tool_calls ++ [⟨name, args, "tool_call_started", none⟩]
      { st with tool_calls := tc,
                emissions := st.emissions ++ [⟨"", st.full_response, tc⟩] }
  | .runItemStreamEvent .fileSearchCall =>
      let tc := st.tool_calls ++ [⟨"file_search", "", "file_search_call", none⟩]
      { st with tool_calls := tc,
                emissions := st.emissions ++ [⟨"", st.full_response, tc⟩] }
  | .runItemStreamEvent .otherItem => st
  | .runItemStreamEvent (.toolCallOutputItem out) =>
      match st.tool_calls.getLast? with
      | none => st
      | some t =>
          { st with tool_calls :=
              st.tool_calls.dropLast ++
                [{ t with ttype := "tool_call_completed", output := out }] }
  | .otherEvent => st

/-- How the streamed run terminates: normally (with the runtime-provided
`result.final_output`, `None` or empty modelling a falsy value), by the
guardrail tripwire raising `InputGuardrailTripwireTriggered` mid-stream, or
by any other exception whose `str(e)` is the given message. -/
inductive StreamTermination where
  | ok (final_output : Option String)
  | tripwire (excMsg : String)
  | exc (excMsg : String)

/-- Behaviour of the external agent runtime for one invocation: either
`Runner.run_streamed` itself raises `InputGuardrailTripwireTriggered`
(`agent/processor.py` lines 122-124), or it yields a stream of events that
ends in one of the terminations above. -/
inductive RunOutcome where
  | tripwireAtStart (excMsg : String)
  | streamed (events : List StreamEvent) (term : StreamTermination)

/-- The fixed apologetic text returned when the guardrail trips at
invocation start (`agent/processor.py` line 128). -/
def guardrailBlockedText : String :=
  "⚠️ Desculpe, mas não posso responder a esse tipo de conteúdo em um ambiente profissional. Por favor, mantenha as conversas relacionadas ao trabalho e produtividade."

/-- The short-circuit dict built when `InputGuardrailTripwireTriggered` is
caught at `Runner.run_streamed` (`agent/processor.py` lines 127-131). -/
def blockedResponse : AgentResponse :=
  { text := guardrailBlockedText, tools := [], token_usage := ⟨0, 0, 0⟩ }

/-- Embeds the final `except Exception` branch of `process_message`
(`agent/processor.py` lines 193-204): the default message interpolates the
raw `str(e)`, and the `rate_limit`/`timeout`/`connection` substring tests
replace it with a fixed category message. -/
def errorText (excMsg : String) : String :=
  if strContains (pyLower excMsg) "rate_limit" then
    "Muitas solicitações simultâneas. Tente novamente em alguns instantes."
  else if strContains (pyLower excMsg) "timeout" then
    "Timeout na resposta. Tente novamente com uma mensagem mais simples."
  else if strContains (pyLower excMsg) "connection" then
    "Erro de conexão. Tente novamente em alguns instantes."
  else
    "Erro no processamento da mensagem: " ++ excMsg

/-- Embeds the `final_text` expression (`agent/processor.py` line 181):
`full_response or str(result.final_output) if result.final_output else
"No response generated."` — the conditional expression binds last, so a
falsy `final_output` yields the fallback text even when `full_response`
is non-empty. -/
def finalTextOf (full_response : String) (final_output : Option String) : String :=
  match final_output with
  | none => "No response generated."
  | some s =>
      if s = "" then "No response generated."
      else if full_response = "" then s
      else full_response

/-- Embeds the native-SDK execution path of `process_message`
(`agent/processor.py` lines 116-210) as a function of the runtime behaviour:
the guardrail-at-start short circuit, the streaming loop, the normal return
with zeroed token usage, and the outer `except Exception` handler (which the
mid-stream `InputGuardrailTripwireTriggered` also falls into, since no inner
handler surrounds the loop).  The second component is the list of
`stream_callback` invocations that occurred. -/
def process_message (outcome : RunOutcome) : AgentResponse × List Emission :=
  match outcome with
  | .tripwireAtStart _ => (blockedResponse, [])
  | .streamed events term =>
      let st := events.foldl processStreamEvent initialStreamState
      match term with
      | .ok final_output =>
          ({ text := finalTextOf st.full_response final_output,
             tools := st.tool_calls,
             token_usage := ⟨0, 0, 0⟩ }, st.emissions)
      | .tripwire m =>
          ({ text := errorText m, tools := [], token_usage := ⟨0, 0, 0⟩ },
           st.emissions)
      | .exc m =>
          ({ text := errorText m, tools := [], token_usage := ⟨0, 0, 0⟩ },
           st.emissions)

/-- Embeds the user-visible error text of the `except` branch of
`process_think_message` (`server/message_processor.py` lines 631-636):
`f"Erro ao processar análise: {str(e)}"`. -/
def thinkErrorText (excMsg : String) : String :=
  "Erro ao processar análise: " ++ excMsg

/-! ## Orchestrator retry policy (`server/message_processor.py` lines 235-274)

The error classifier `should_retry_error` and the category-message map
`get_user_friendly_error_message` live in `server/utils.py`, which is not
part of the sources; they are modelled from the spec below.  The handler
structure itself (retry counter, backoff formula, the retry call, the
`finally` that clears the counter) is embedded from
`server/message_processor.py`. -/

/-- Modelled from the spec: `should_retry_error` from the missing
`server/utils.py`.  Spec 4.5: "classify by error-message substring into
user-facing categories (rate limit, timeout, connection, generic); if
classified as retryable ..." — the three named categories are the retryable
ones, recognised by substring of the error text. -/
def should_retry_error (excMsg : String) : Bool :=
  strContains (pyLower excMsg) "rate_limit" ||
  strContains (pyLower excMsg) "timeout" ||
  strContains (pyLower excMsg) "connection"

/-- Modelled from the spec: `get_user_friendly_error_message` from the
missing `server/utils.py`.  Spec 7: the user sees a fixed category message
(rate limit / timeout / connection) or a generic apologetic message, never
the raw exception text.  The concrete wording is not in the sources; four
fixed, pairwise distinct placeholder texts stand for it. -/
def get_user_friendly_error_message (excMsg : String) : String :=
  if strContains (pyLower excMsg) "rate_limit" then
    "mensagem fixa da categoria rate limit"
  else if strContains (pyLower excMsg) "timeout" then
    "mensagem fixa da categoria timeout"
  else if strContains (pyLower excMsg) "connection" then
    "mensagem fixa da categoria connection"
  else
    "mensagem fixa da categoria generica"

/-- The `str(e)` of the `AttributeError` raised by the retry call
(`server/message_processor.py` line 253): `MessageProcessor` defines no
method `process_and_respond_streaming`, so looking the attribute up raises
immediately. -/
def attributeErrorMsg : String :=
  "MessageProcessor object has no attribute process_and_respond_streaming"

/-- Embeds the `except Exception` handler of `MessageProcessor.process_message`
(`server/message_processor.py` lines 235-274) for a processing exception
whose `str(e)` is `excMsg`, entered with retry state `retryState` (the
`_retry_count` attribute, absent or set; `getD 0` embeds
`getattr(self, "_retry_count", 0)`).  Returns the list of backoff sleeps
performed (in seconds), the user-facing text delivered at the end, and the
retry state left behind.  When the error is retryable and under the cap
(3), the handler sleeps
`min(2 ** retry_count, 10)` seconds and then calls
`self.process_and_respond_streaming(...)`; that method does not exist, so
the inner `try` fails at once with `AttributeError`, `user_error_msg` is
recomputed from that error, and the `finally` clears `_retry_count`. -/
def handle_processing_error (excMsg : String) (retryState : Option Nat) :
    List Nat × String × Option Nat :=
  let retry_count := retryState.getD 0
  if should_retry_error excMsg && decide (retry_count < 3) then
    let backoff_time := min (2 ^ retry_count) 10
    ([backoff_time], get_user_friendly_error_message attributeErrorMsg, none)
  else
    ([], get_user_friendly_error_message excMsg, retryState)

/-! ## Context-limit accounting (`server/message_processor.py` lines 197-207)

`ContextManager.check_context_limit` lives in `server/context_manager.py`,
which is not part of the sources; it is modelled from the spec.  The token
sum and the footer append are embedded from `server/message_processor.py`. -/

/-- Modelled from the spec: the non-empty warning string produced by
`check_context_limit` once the budget is met or exceeded (missing
`server/context_manager.py`); its exact wording is not in the sources. -/
def contextLimitWarningText : String :=
  "⚠️ O limite de contexto desta conversa foi atingido."

/-- Modelled from the spec: `check_context_limit(thread_id, new_token_count,
model)` from the missing `server/context_manager.py`.  Spec 4.4: "adds
`new_token_count` to a running per-thread total and compares against a
model-specific budget; returns a non-empty warning string once the budget is
met or exceeded".  `totals` is the in-memory per-thread table and `budget`
the model-specific budget table; the updated table is returned alongside
`(is_at_limit, warning_text)`. -/
def check_context_limit (budget : String → Nat) (totals : String → Nat)
    (thread_id : String) (new_token_count : Nat) (model : String) :
    (String → Nat) × Bool × String :=
  let new_total := totals thread_id + new_token_count
  let totals' := fun k => if k = thread_id then new_total else totals k
  let is_at_limit := decide (budget model ≤ new_total)
  (totals', is_at_limit, if is_at_limit then contextLimitWarningText else "")

/-- Embeds `total_tokens = input_tokens + output_tokens`
(`server/message_processor.py` line 200). -/
def total_tokens (input_tokens output_tokens : Nat) : Nat :=
  input_tokens + output_tokens

/-- Embeds `text_with_footer = text_resp + memory_warning`
(`server/message_processor.py` line 207): the warning is appended to the
outgoing text unconditionally, never blocking the send. -/
def text_with_footer (text_resp memory_warning : String) : String :=
  text_resp ++ memory_warning

/-! ## Event dedup (`server/event_handlers.py`)

The dedup key is `f"{channel_id}_{ts}_{user_id}"`; the store is the Python
set `processed_messages` shared by both handlers.  A Python set's iteration
order is unspecified; it is modelled here as an insertion-ordered list, so
`list(processed_messages)[:1000]` is the 1000 oldest entries. -/

/-- Embeds the composite dedup key `f"{channel_id}_{ts}_{user_id}"`
(`server/event_handlers.py` lines 70 and 143). -/
def mkMessageKey (channel_id ts user_id : String) : String :=
  channel_id ++ "_" ++ ts ++ "_" ++ user_id

/-- Embeds the dedup-and-process core of `handle_app_mention_events`
(`server/event_handlers.py` lines 142-185), after the guard clauses
(missing fields, missing agent, bot self-mention, DM channel) have passed:
skip if the key is in the set; otherwise add it, prune the 1000 oldest
entries when the set exceeds 10000, and process the message (`true` means
the message goes on to produce an outbound response). -/
def handleMentionKey (processed : List String) (key : String) :
    List String × Bool :=
  if key ∈ processed then (processed, false)
  else
    let added := processed ++ [key]
    let pruned := if added.length > 10000 then added.drop 1000 else added
    (pruned, true)

/-- Embeds the dedup-and-process core of `handle_message_events`
(`server/event_handlers.py` lines 69-90), after its guard clauses (non-DM
channel, bot self-message) have passed: skip if the key is in the set,
otherwise add it and process.  This handler performs no pruning. -/
def handleDMKey (processed : List String) (key : String) :
    List String × Bool :=
  if key ∈ processed then (processed, false)
  else (processed ++ [key], true)

/-- Delivers a sequence of mention-event keys through `handleMentionKey`,
starting from dedup set `processed` and response log `log`; returns the
final set and the keys that produced an outbound response, in order. -/
def runMentionKeys (processed log keys : List String) :
    List String × List String :=
  match keys with
  | [] => (processed, log)
  | k :: ks =>
      let r := handleMentionKey processed k
      runMentionKeys r.1 (if r.2 then log ++ [k] else log) ks

/-! ## Long-message splitting (`server/message_processor.py` lines 638-686)

`_split_long_message` works on Python strings with `split`, `strip`,
slicing and `len`; it is embedded here over `List Char` (one element per
code point, so `len` and slicing coincide) with faithful models of
`str.split(sep)` and `str.strip()`. -/

/-- Models Python `str.strip()`: remove leading and trailing whitespace. -/
def pyStrip (s : List Char) : List Char :=
  ((s.dropWhile Char.isWhitespace).reverse.dropWhile Char.isWhitespace).reverse

/-- Finds the leftmost occurrence of `sep` in `s`: returns the part before
it and the part after it, or `none` when `sep` does not occur.  Helper for
the model of Python `str.split(sep)`. -/
def breakOnSep (sep : List Char) : List Char → Option (List Char × List Char)
  | [] => if sep.isPrefixOf ([] : List Char) then some ([], []) else none
  | c :: cs =>
      if sep.isPrefixOf (c :: cs) then some ([], (c :: cs).drop sep.length)
      else (breakOnSep sep cs).map fun p => (c :: p.1, p.2)

/-- Fuelled worker for the model of Python `str.split(sep)`: split off the
piece before each leftmost occurrence of `sep`.  The fuel only serves
structural termination; `pySplit` supplies more fuel than occurrences. -/
def pySplitF (sep : List Char) : Nat → List Char → List (List Char)
  | 0, s => [s]
  | fuel + 1, s =>
      match breakOnSep sep s with
      | none => [s]
      | some (a, b) => a :: pySplitF sep fuel b

/-- Models Python `str.split(sep)` for a non-empty separator: all pieces
between non-overlapping leftmost occurrences of `sep`, empty pieces kept.
(Python raises on an empty separator; both separators used by
`_split_long_message` are non-empty.) -/
def pySplit (sep s : List Char) : List (List Char) :=
  if sep = [] then [s] else pySplitF sep (s.length + 1) s

/-- Fuelled worker embedding the character-level `while` loop of
`_split_long_message` (`server/message_processor.py` lines 674-676):
`while len(sentence) > max_length: parts.append(sentence[:max_length]);
sentence = sentence[max_length:]`.  Returns the appended chunks and the
final remainder.  (For `max_length = 0` the Python loop would not
terminate; the claims assume `max_length ≥ 1`, where the fuel suffices.) -/
def hardSplitF (max_length : Nat) : Nat → List Char → List (List Char) × List Char
  | 0, s => ([], s)
  | fuel + 1, s =>
      if s.length > max_length then
        let r := hardSplitF max_length fuel (s.drop max_length)
        (s.take max_length :: r.1, r.2)
      else ([], s)

/-- The character-level `while` loop of `_split_long_message` with enough
fuel for its input. -/
def hardSplit (max_length : Nat) (s : List Char) : List (List Char) × List Char :=
  hardSplitF max_length (s.length + 1) s

/-- Embeds the body of the `for sentence in sentences` loop of
`_split_long_message` (`server/message_processor.py` lines 668-679), acting
on the state `(parts, current_part)`. -/
def sentenceStep (max_length : Nat) (st : List (List Char) × List Char)
    (sentence : List Char) : List (List Char) × List Char :=
  let (parts, current_part) := st
  if current_part.length + sentence.length + 2 > max_length then
    if current_part ≠ [] then (parts ++ [pyStrip current_part], sentence)
    else
      let r := hardSplit max_length sentence
      (parts ++ r.1, r.2)
  else (parts, current_part ++ sentence ++ [ '.', ' ' ])

/-- Embeds the body of the `for paragraph in paragraphs` loop of
`_split_long_message` (`server/message_processor.py` lines 661-681), acting
on the state `(parts, current_part)`.  When the paragraph does not fit and
`current_part` is non-empty, the whole paragraph becomes the new
`current_part` without further splitting; when `current_part` is empty, the
paragraph is split into sentences on `". "`. -/
def paragraphStep (max_length : Nat) (st : List (List Char) × List Char)
    (paragraph : List Char) : List (List Char) × List Char :=
  let (parts, current_part) := st
  if current_part.length + paragraph.length + 2 > max_length then
    if current_part ≠ [] then (parts ++ [pyStrip current_part], paragraph)
    else (pySplit [ '.', ' ' ] paragraph).foldl (sentenceStep max_length) (parts, [])
  else (parts, current_part ++ paragraph ++ [ '\n', '\n' ])

/-- Embeds `MessageProcessor._split_long_message`
(`server/message_processor.py` lines 638-686) over `List Char`: short
messages are returned whole; otherwise the message is split into paragraphs
on `"\n\n"`, folded through `paragraphStep`, and a final non-whitespace
`current_part` is flushed stripped. -/
def splitCore (max_length : Nat) (message : List Char) : List (List Char) :=
  if message.length ≤ max_length then [message]
  else
    let r := (pySplit [ '\n', '\n' ] message).foldl (paragraphStep max_length) ([], [])
    if pyStrip r.2 ≠ [] then r.1 ++ [pyStrip r.2] else r.1

/-- `MessageProcessor._split_long_message` at the `String` boundary. -/
def split_long_message (message : String) (max_length : Nat) : List String :=
  (splitCore max_length message.toList).map String.mk

/-! ## Derived observations used in the theorem statements -/

/-- The names of the `tool_call_item` events of a stream, in arrival order
(the "tool call started" events of the spec). -/
def startedToolNames (events : List StreamEvent) : List String :=
  events.filterMap fun e =>
    match e with
    | .runItemStreamEvent (.toolCallItem name _) => some name
    | _ => none

/-- The `tool_calls` entries that the loop appends for the `tool_call_item`
events of a stream, in arrival order, all in the started state. -/
def startedToolEntries (events : List StreamEvent) : List ToolCall :=
  events.filterMap fun e =>
    match e with
    | .runItemStreamEvent (.toolCallItem name args) =>
        some ⟨name, args, "tool_call_started", none⟩
    | _ => none

/-- First occurrences of `keys` that are fresh with respect to the dedup
set `processed`: the keys that a pruning-free run responds to, in order. -/
def freshKeys (processed : List String) : List String → List String
  | [] => []
  | k :: ks =>
      if k ∈ processed then freshKeys processed ks
      else k :: freshKeys (processed ++ [k]) ks

/-- A family of pairwise distinct dedup keys (channel names of pairwise
distinct lengths), used to exercise the pruning path. -/
def dedupKeyAt (i : Nat) : String :=
  mkMessageKey (String.mk (List.replicate i 'c')) "1" "u"

/-- The 3005-character message of the splitting counterexample: a
two-character paragraph `"a "` followed by a 3001-character paragraph. -/
def c7CounterMessage : String :=
  "a \n\n" ++ String.mk (List.replicate 3001 'x')

/-! ## Theorems -/

/-- C2: the guardrail tripwire fires exactly when the verdict is flagged
inappropriate with confidence strictly above 0.7, and a verdict with
confidence at most 0.7 never fires it, flagged or not. -/
theorem c2_tripwire_threshold (v : ProfessionalContentOutput) :
    (tripwire_triggered v = true ↔
      v.is_inappropriate = true ∧ (7 : ℚ)/10 < v.confidence_score) ∧
    (v.confidence_score ≤ (7 : ℚ)/10 → tripwire_triggered v = false) := by
  constructor
  · simp [tripwire_triggered]
  · intro h
    have h2 : ¬((7 : ℚ)/10 < v.confidence_score) := not_lt.mpr h
    simp [tripwire_triggered, h2]

/-- Witness for C2: a flagged verdict with confidence 1/2 does not trip. -/
theorem c2_tripwire_threshold_witness :
    (1 : ℚ)/2 ≤ (7 : ℚ)/10 ∧
      tripwire_triggered ⟨true, "personal", "r", (1 : ℚ)/2⟩ = false :=
  ⟨by norm_num, (c2_tripwire_threshold ⟨true, "personal", "r", (1 : ℚ)/2⟩).2 (by norm_num)⟩

set_option maxRecDepth 8000 in
/-- C9: the generic branch of the error handler in `process_message`
(`agent/processor.py` line 198) and the error handler of
`process_think_message` (`server/message_processor.py` line 634) both
interpolate the raw `str(e)` into the user-visible text, contradicting the
rule that raw exception text is never exposed. -/
theorem c9_raw_exception_text_exposed :
    errorText "division by zero" =
      "Erro no processamento da mensagem: division by zero" ∧
    strContains (errorText "division by zero") "division by zero" = true ∧
    thinkErrorText "division by zero" =
      "Erro ao processar análise: division by zero" ∧
    strContains (thinkErrorText "division by zero") "division by zero" = true := by
  decide

set_option maxRecDepth 8000 in
/-- C10: `_split_long_message` can return a part longer than `max_length`:
with `max_length = 5`, the message `"A\n\nBBBBBBBBB"` yields the part
`"BBBBBBBBB"` of length 9, because a paragraph that does not fit is
assigned whole to `current_part` without sentence- or character-level
splitting when `current_part` is non-empty. -/
theorem c10_split_part_exceeds_limit :
    split_long_message "A\n\nBBBBBBBBB" 5 = ["A", "BBBBBBBBB"] ∧
    1 ≤ 5 ∧ 5 < ("BBBBBBBBB" : String).length := by
  decide

set_option maxRecDepth 8000 in
/-- C3 counterexample: on an always-timeout error with no retry state the
handler performs a single backoff of `min(2 ** 0, 10) = 1` second — not the
claimed delays 2, 4, 8 — and, because the retry target
`process_and_respond_streaming` does not exist, the pipeline is never
re-run and the delivered message is the generic category message, not the
timeout one. -/
theorem c3_counterexample :
    handle_processing_error "Request timeout" none =
      ([1], "mensagem fixa da categoria generica", none) ∧
    ([1] : List Nat) ≠ [2, 4, 8] ∧
    "mensagem fixa da categoria generica" ≠ "mensagem fixa da categoria timeout" := by
  decide

/-- C3 as amended: a retryable error with retry state under the cap of 3
triggers exactly one backoff of `min(2 ** retry_count, 10)` seconds (1s on
a first attempt), after which the retry raises `AttributeError` — the
pipeline is not re-run — the generic category message is delivered, and the
retry state is cleared; a non-retryable error triggers no backoff and keeps
the retry state; every backoff is capped at 10 seconds. -/
theorem c3_retry_backoff :
    (∀ excMsg rs, should_retry_error excMsg = true → rs.getD 0 < 3 →
       handle_processing_error excMsg rs =
         ([min (2 ^ rs.getD 0) 10],
          get_user_friendly_error_message attributeErrorMsg, none)) ∧
    (∀ excMsg rs, should_retry_error excMsg = false →
       handle_processing_error excMsg rs =
         ([], get_user_friendly_error_message excMsg, rs)) ∧
    (∀ r : Nat, min (2 ^ r) 10 ≤ 10) := by
  refine ⟨?_, ?_, ?_⟩
  · intro excMsg rs h1 h2
    simp [handle_processing_error, h1, h2]
  · intro excMsg rs h1
    simp [handle_processing_error, h1]
  · intro r
    exact min_le_right _ _

/-- Witness for C3 as amended: concrete retryable and non-retryable
errors. -/
theorem c3_retry_backoff_witness :
    handle_processing_error "Request timeout" none =
      ([min (2 ^ (0 : Nat)) 10],
       get_user_friendly_error_message attributeErrorMsg, none) ∧
    handle_processing_error "boom" (some 1) =
      ([], get_user_friendly_error_message "boom", some 1) :=
  ⟨c3_retry_backoff.1 "Request timeout" none (by decide) (by decide),
   c3_retry_backoff.2.1 "boom" (some 1) (by decide)⟩

/-- C6: with per-thread total `T = totals thread_id` and model budget
`B = budget model`, a message consuming `n = input + output` tokens with
`T + n ≥ B` yields `is_at_limit = true` and a non-empty warning that is
appended to the outgoing text (never blocking the send), and with
`T + n < B` it yields the empty warning. -/
theorem c6_context_limit_warning (budget totals : String → Nat)
    (thread_id : String) (input_tokens output_tokens : Nat) (model : String) :
    (budget model ≤
        totals thread_id + total_tokens input_tokens output_tokens →
      (check_context_limit budget totals thread_id
          (total_tokens input_tokens output_tokens) model).2.1 = true ∧
      0 < (check_context_limit budget totals thread_id
          (total_tokens input_tokens output_tokens) model).2.2.length ∧
      ∀ text_resp,
        text_with_footer text_resp
            (check_context_limit budget totals thread_id
              (total_tokens input_tokens output_tokens) model).2.2 =
          text_resp ++ (check_context_limit budget totals thread_id
              (total_tokens input_tokens output_tokens) model).2.2) ∧
    (totals thread_id + total_tokens input_tokens output_tokens <
        budget model →
      (check_context_limit budget totals thread_id
          (total_tokens input_tokens output_tokens) model).2.2 = "") := by
  constructor
  · intro h
    have hd : (decide (budget model ≤
        totals thread_id + (input_tokens + output_tokens))) = true :=
      decide_eq_true h
    refine ⟨?_, ?_, fun _ => rfl⟩
    · simp [check_context_limit, total_tokens, hd]
    · simp [check_context_limit, total_tokens, hd]
      decide
  · intro h
    have hd : (decide (budget model ≤
        totals thread_id + (input_tokens + output_tokens))) = false :=
      decide_eq_false (not_le.mpr h)
    simp [check_context_limit, total_tokens, hd]

/-- Witness for C6: budget 10, prior total 5, and exchanges of 5 and 4
tokens. -/
theorem c6_context_limit_warning_witness :
    ((fun _ => 10 : String → Nat) "gpt-4o" ≤
        (fun _ => 5 : String → Nat) "t" + total_tokens 3 2 ∧
      0 < (check_context_limit (fun _ => 10) (fun _ => 5) "t"
          (total_tokens 3 2) "gpt-4o").2.2.length) ∧
    ((fun _ => 5 : String → Nat) "t" + total_tokens 2 2 <
        (fun _ => 10 : String → Nat) "gpt-4o" ∧
      (check_context_limit (fun _ => 10) (fun _ => 5) "t"
          (total_tokens 2 2) "gpt-4o").2.2 = "") :=
  ⟨⟨by decide,
    ((c6_context_limit_warning (fun _ => 10) (fun _ => 5) "t" 3 2 "gpt-4o").1
      (by decide)).2.1⟩,
   ⟨by decide,
    (c6_context_limit_warning (fun _ => 10) (fun _ => 5) "t" 2 2 "gpt-4o").2
      (by decide)⟩⟩

set_option maxRecDepth 8000 in
/-- C8 counterexample: a message that contains the phrase
"preciso ver minha agenda no calendar hoje" but also a higher-priority
keyword ("Drive") routes to `google_drive`, not to the calendar
integration, so the claim's universal statement over all messages
containing the phrase fails. -/
theorem c8_counterexample :
    strContains "Drive: preciso ver minha agenda no calendar hoje"
      "preciso ver minha agenda no calendar hoje" = true ∧
    get_mcp_by_keywords "Drive: preciso ver minha agenda no calendar hoje" =
      some "google_drive" ∧
    some "google_drive" ≠ some "mcpGoogleCalendar" := by
  decide

/-- C8 as amended: detection is a case-insensitive keyword substring match
resolved in the fixed `PRIORITY_ORDER` table order (first match wins), and
a message containing "preciso ver minha agenda no calendar hoje" routes to
the Google Calendar integration provided no keyword of a higher-priority
integration occurs in the lowercased message. -/
theorem c8_keyword_priority (msg : String)
    (h1 : strContains (pyLower msg) "google drive" = false)
    (h2 : strContains (pyLower msg) "drive" = false)
    (h3 : strContains (pyLower msg) "gdrive" = false)
    (h4 : strContains (pyLower msg) "everhour" = false)
    (h5 : strContains (pyLower msg) "gmail" = false)
    (h6 : strContains (pyLower msg) "asana" = false)
    (hc : strContains msg "preciso ver minha agenda no calendar hoje" = true) :
    get_mcp_by_keywords msg = some "mcpGoogleCalendar" := by
  have hinf : "preciso ver minha agenda no calendar hoje".toList <:+: msg.toList := by
    unfold strContains at hc
    exact of_decide_eq_true hc
  have hcal : strContains (pyLower msg) "calendar" = true := by
    have m1 : "preciso ver minha agenda no calendar hoje".toList.map Char.toLower <:+:
        msg.toList.map Char.toLower := List.IsInfix.map _ hinf
    have m2 : "preciso ver minha agenda no calendar hoje".toList.map Char.toLower =
        "preciso ver minha agenda no calendar hoje".toList := by decide
    have m3 : "calendar".toList <:+:
        "preciso ver minha agenda no calendar hoje".toList := by decide
    have m4 : (pyLower msg).toList = msg.toList.map Char.toLower := rfl
    unfold strContains
    refine decide_eq_true ?_
    rw [m4]
    exact m3.trans (m2 ▸ m1)
  have e1 : keywordsOf "google_drive" = ["google drive", "drive", "gdrive"] := rfl
  have e2 : keywordsOf "mcpEverhour" = ["everhour"] := rfl
  have e3 : keywordsOf "mcpGmail" = ["gmail"] := rfl
  have e4 : keywordsOf "mcpAsana" = ["asana"] := rfl
  have e5 : keywordsOf "mcpGoogleCalendar" = ["calendar"] := rfl
  unfold get_mcp_by_keywords PRIORITY_ORDER
  rw [List.find?_cons_of_neg _ (by rw [e1]; simp [h1, h2, h3]),
      List.find?_cons_of_neg _ (by rw [e2]; simp [h4]),
      List.find?_cons_of_neg _ (by rw [e3]; simp [h5]),
      List.find?_cons_of_neg _ (by rw [e4]; simp [h6]),
      List.find?_cons_of_pos _ (by rw [e5]; simp [hcal])]

set_option maxRecDepth 8000 in
/-- Witness for C8 as amended: the bare phrase itself routes to the
calendar integration. -/
theorem c8_keyword_priority_witness :
    (strContains (pyLower "preciso ver minha agenda no calendar hoje")
        "drive" = false ∧
      strContains (pyLower "preciso ver minha agenda no calendar hoje")
        "asana" = false ∧
      strContains "preciso ver minha agenda no calendar hoje"
        "preciso ver minha agenda no calendar hoje" = true) ∧
    get_mcp_by_keywords "preciso ver minha agenda no calendar hoje" =
      some "mcpGoogleCalendar" :=
  ⟨⟨by decide, by decide, by decide⟩,
   c8_keyword_priority "preciso ver minha agenda no calendar hoje"
     (by decide) (by decide) (by decide) (by decide) (by decide) (by decide)
     (by decide)⟩

set_option maxRecDepth 8000 in
/-- C1 counterexample: when the tripwire triggers while stream events are
being consumed (the mid-stream `InputGuardrailTripwireTriggered` lands in
the generic `except Exception` handler, since no inner handler surrounds
the loop), the returned text is the generic error interpolation, not the
fixed apologetic message, and the text delta consumed before the trip was
already emitted to the user. -/
theorem c1_counterexample :
    (process_message (.streamed [.rawResponseEvent (.textDelta "Olá")]
        (.tripwire "Guardrail InputGuardrailTripwireTriggered"))).1.text =
      "Erro no processamento da mensagem: Guardrail InputGuardrailTripwireTriggered" ∧
    (process_message (.streamed [.rawResponseEvent (.textDelta "Olá")]
        (.tripwire "Guardrail InputGuardrailTripwireTriggered"))).2 =
      [⟨"Olá", "Olá", []⟩] ∧
    ¬("Erro no processamento da mensagem: Guardrail InputGuardrailTripwireTriggered" =
        guardrailBlockedText) := by
  decide

/-- C1 as amended: only when `InputGuardrailTripwireTriggered` is raised at
the `Runner.run_streamed` call does `process_message` short-circuit with
the fixed apologetic message, empty tools, zeroed token usage and no
emitted text; a tripwire raised while stream events are consumed goes
through the generic exception path instead — the user text is the
substring-classified error message, never the fixed apology, and deltas
emitted before the trip remain emitted. -/
theorem c1_guardrail_short_circuit :
    (∀ excMsg,
       (process_message (.tripwireAtStart excMsg)).1.text = guardrailBlockedText ∧
       (process_message (.tripwireAtStart excMsg)).1.tools = [] ∧
       (process_message (.tripwireAtStart excMsg)).1.token_usage = ⟨0, 0, 0⟩ ∧
       (process_message (.tripwireAtStart excMsg)).2 = []) ∧
    (∀ events excMsg,
       (process_message (.streamed events (.tripwire excMsg))).1.text =
         errorText excMsg ∧
       (process_message (.streamed events (.tripwire excMsg))).1.text ≠
         guardrailBlockedText ∧
       (process_message (.streamed events (.tripwire excMsg))).2 =
         (events.foldl processStreamEvent initialStreamState).emissions) := by
  refine ⟨fun _ => ⟨rfl, rfl, rfl, rfl⟩, fun events m => ⟨rfl, ?_, rfl⟩⟩
  show errorText m ≠ guardrailBlockedText
  intro h
  unfold errorText at h
  split at h
  · exact absurd h (by decide)
  · split at h
    · exact absurd h (by decide)
    · split at h
      · exact absurd h (by decide)
      · have h2 := congrArg (fun s => s.toList.head?) h
        have h3 : (some 'E' : Option Char) = some '⚠' := h2
        exact absurd h3 (by decide)

/-- The streaming fold preserves and extends tool-call names: in any run
without `file_search_call` events, the names of the assembled `tool_calls`
are the initial ones followed by the started-event names in order. -/
theorem foldl_toolNames (events : List StreamEvent) (st : StreamState)
    (h : ∀ e ∈ events, e ≠ StreamEvent.runItemStreamEvent .fileSearchCall) :
    ((events.foldl processStreamEvent st).tool_calls).map ToolCall.tool_name =
      st.tool_calls.map ToolCall.tool_name ++ startedToolNames events := by
  induction events generalizing st with
  | nil => simp [startedToolNames]
  | cons e es ih =>
      have he : e ≠ StreamEvent.runItemStreamEvent .fileSearchCall :=
        h e (List.mem_cons_self _ _)
      have hes : ∀ x ∈ es, x ≠ StreamEvent.runItemStreamEvent .fileSearchCall :=
        fun x hx => h x (List.mem_cons_of_mem _ hx)
      rw [List.foldl_cons, ih _ hes]
      cases e with
      | rawResponseEvent d =>
          cases d with
          | textDelta s =>
              by_cases hs : s = "" <;>
                simp [processStreamEvent, hs, startedToolNames, List.filterMap_cons]
          | otherDelta s =>
              by_cases hs : s = "" <;>
                simp [processStreamEvent, hs, startedToolNames, List.filterMap_cons]
          | noDelta => simp [processStreamEvent, startedToolNames, List.filterMap_cons]
      | runItemStreamEvent it =>
          cases it with
          | toolCallItem n a =>
              simp [processStreamEvent, startedToolNames, List.filterMap_cons]
          | fileSearchCall => exact absurd rfl he
          | toolCallOutputItem out =>
              rcases List.eq_nil_or_concat st.tool_calls with h0 | ⟨l', a, hconcat⟩
              · simp [processStreamEvent, h0, startedToolNames, List.filterMap_cons]
              · rw [List.concat_eq_append] at hconcat
                simp only [processStreamEvent, hconcat, List.getLast?_concat,
                  List.dropLast_concat]
                simp [startedToolNames, List.filterMap_cons]
          | otherItem => simp [processStreamEvent, startedToolNames, List.filterMap_cons]
      | otherEvent => simp [processStreamEvent, startedToolNames, List.filterMap_cons]

/-- In a run with neither `file_search_call` nor `tool_call_output_item`
events, the streaming fold appends exactly the started entries, leaving the
initial ones untouched. -/
theorem foldl_toolCalls_no_output (events : List StreamEvent) (st : StreamState)
    (hfs : ∀ e ∈ events, e ≠ StreamEvent.runItemStreamEvent .fileSearchCall)
    (hout : ∀ e ∈ events, ∀ o,
      e ≠ StreamEvent.runItemStreamEvent (.toolCallOutputItem o)) :
    (events.foldl processStreamEvent st).tool_calls =
      st.tool_calls ++ startedToolEntries events := by
  induction events generalizing st with
  | nil => simp [startedToolEntries]
  | cons e es ih =>
      have he : e ≠ StreamEvent.runItemStreamEvent .fileSearchCall :=
        hfs e (List.mem_cons_self _ _)
      have heo : ∀ o, e ≠ StreamEvent.runItemStreamEvent (.toolCallOutputItem o) :=
        hout e (List.mem_cons_self _ _)
      have hes : ∀ x ∈ es, x ≠ StreamEvent.runItemStreamEvent .fileSearchCall :=
        fun x hx => hfs x (List.mem_cons_of_mem _ hx)
      have heso : ∀ x ∈ es, ∀ o,
          x ≠ StreamEvent.runItemStreamEvent (.toolCallOutputItem o) :=
        fun x hx => hout x (List.mem_cons_of_mem _ hx)
      rw [List.foldl_cons, ih _ hes heso]
      cases e with
      | rawResponseEvent d =>
          cases d with
          | textDelta s =>
              by_cases hs : s = "" <;>
                simp [processStreamEvent, hs, startedToolEntries, List.filterMap_cons]
          | otherDelta s =>
              by_cases hs : s = "" <;>
                simp [processStreamEvent, hs, startedToolEntries, List.filterMap_cons]
          | noDelta => simp [processStreamEvent, startedToolEntries, List.filterMap_cons]
      | runItemStreamEvent it =>
          cases it with
          | toolCallItem n a =>
              simp [processStreamEvent, startedToolEntries, List.filterMap_cons]
          | fileSearchCall => exact absurd rfl he
          | toolCallOutputItem out => exact absurd rfl (heo out)
          | otherItem => simp [processStreamEvent, startedToolEntries, List.filterMap_cons]
      | otherEvent => simp [processStreamEvent, startedToolEntries, List.filterMap_cons]

/-- Every started entry carries status `"tool_call_started"`. -/
theorem startedToolEntries_ttype (events : List StreamEvent) :
    ∀ t ∈ startedToolEntries events, t.ttype = "tool_call_started" := by
  intro t ht
  rw [startedToolEntries, List.mem_filterMap] at ht
  obtain ⟨e, _, hfe⟩ := ht
  cases e with
  | rawResponseEvent d => cases d <;> simp_all
  | runItemStreamEvent it =>
      cases it with
      | toolCallItem n a =>
          simp only [Option.some.injEq] at hfe
          rw [← hfe]
      | fileSearchCall => simp_all
      | toolCallOutputItem o => simp_all
      | otherItem => simp_all
  | otherEvent => simp_all

/-- C5: in any event sequence free of `file_search_call` items, the
assembled `tool_calls` list has exactly one entry per "tool call started"
event, named in arrival order (hence exactly K entries for K started
events); if the sequence moreover contains no output items, every entry
remains in the started state; and an output item completes precisely the
most recent entry, in place, leaving the others untouched.  The assembled
list is what `process_message` returns as `tools` on a normal
termination. -/
theorem c5_stream_tool_tracking :
    (∀ (events : List StreamEvent) (final_output : Option String),
       (process_message (.streamed events (.ok final_output))).1.tools =
         (events.foldl processStreamEvent initialStreamState).tool_calls) ∧
    (∀ (events : List StreamEvent),
       (∀ e ∈ events, e ≠ StreamEvent.runItemStreamEvent .fileSearchCall) →
       ((events.foldl processStreamEvent initialStreamState).tool_calls).map
           ToolCall.tool_name = startedToolNames events) ∧
    (∀ (events : List StreamEvent),
       (∀ e ∈ events, e ≠ StreamEvent.runItemStreamEvent .fileSearchCall) →
       (∀ e ∈ events, ∀ o,
         e ≠ StreamEvent.runItemStreamEvent (.toolCallOutputItem o)) →
       ∀ t ∈ (events.foldl processStreamEvent initialStreamState).tool_calls,
         t.ttype = "tool_call_started") ∧
    (∀ (st : StreamState) (prev : List ToolCall) (t : ToolCall) (out : Option String),
       st.tool_calls = prev ++ [t] →
       (processStreamEvent st
           (.runItemStreamEvent (.toolCallOutputItem out))).tool_calls =
         prev ++ [{ t with ttype := "tool_call_completed", output := out }]) := by
  refine ⟨fun _ _ => rfl, ?_, ?_, ?_⟩
  · intro events h
    rw [foldl_toolNames events initialStreamState h]
    rfl
  · intro events hfs hout t ht
    rw [foldl_toolCalls_no_output events initialStreamState hfs hout] at ht
    have : t ∈ startedToolEntries events := by
      simpa [initialStreamState] using ht
    exact startedToolEntries_ttype events t this
  · intro st prev t out hst
    simp [processStreamEvent, hst, List.getLast?_concat, List.dropLast_concat]

/-- Witness for C5: a started event, a delta, another started event, and an
output item completing the second entry. -/
theorem c5_stream_tool_tracking_witness :
    ((∀ e ∈ [StreamEvent.runItemStreamEvent (.toolCallItem "web_search" "q"),
             StreamEvent.rawResponseEvent (.textDelta "hi"),
             StreamEvent.runItemStreamEvent (.toolCallItem "calc" "e")],
        e ≠ StreamEvent.runItemStreamEvent .fileSearchCall) ∧
     (([StreamEvent.runItemStreamEvent (.toolCallItem "web_search" "q"),
        StreamEvent.rawResponseEvent (.textDelta "hi"),
        StreamEvent.runItemStreamEvent (.toolCallItem "calc" "e")].foldl
          processStreamEvent initialStreamState).tool_calls).map
        ToolCall.tool_name =
      startedToolNames
        [StreamEvent.runItemStreamEvent (.toolCallItem "web_search" "q"),
         StreamEvent.rawResponseEvent (.textDelta "hi"),
         StreamEvent.runItemStreamEvent (.toolCallItem "calc" "e")]) ∧
    (processStreamEvent
        ⟨"hi", [⟨"web_search", "q", "tool_call_started", none⟩,
                ⟨"calc", "e", "tool_call_started", none⟩], []⟩
        (.runItemStreamEvent (.toolCallOutputItem (some "out")))).tool_calls =
      [⟨"web_search", "q", "tool_call_started", none⟩,
       ⟨"calc", "e", "tool_call_completed", some "out"⟩] :=
  ⟨⟨by decide,
    c5_stream_tool_tracking.2.1
      [StreamEvent.runItemStreamEvent (.toolCallItem "web_search" "q"),
       StreamEvent.rawResponseEvent (.textDelta "hi"),
       StreamEvent.runItemStreamEvent (.toolCallItem "calc" "e")] (by decide)⟩,
   c5_stream_tool_tracking.2.2.2
     ⟨"hi", [⟨"web_search", "q", "tool_call_started", none⟩,
             ⟨"calc", "e", "tool_call_started", none⟩], []⟩
     [⟨"web_search", "q", "tool_call_started", none⟩]
     ⟨"calc", "e", "tool_call_started", none⟩ (some "out") rfl⟩

/-- A successful `breakOnSep` consumes part of the string: the remainder is
strictly shorter. -/
theorem breakOnSep_rest_length (x : Char) (xs : List Char) :
    ∀ (s a b : List Char), breakOnSep (x :: xs) s = some (a, b) →
      b.length < s.length := by
  intro s
  induction s with
  | nil =>
      intro a b h
      exact Option.noConfusion h
  | cons c cs ih =>
      intro a b h
      rw [breakOnSep] at h
      by_cases hp : (x :: xs).isPrefixOf (c :: cs) = true
      · rw [if_pos hp] at h
        simp only [Option.some.injEq, Prod.mk.injEq] at h
        rw [← h.2, List.length_drop]
        simp only [List.length_cons]
        omega
      · rw [if_neg hp] at h
        cases hb : breakOnSep (x :: xs) cs with
        | none => rw [hb] at h; simp at h
        | some p =>
            rw [hb] at h
            have hb2 : (c :: p.1, p.2) = (a, b) := Option.some.inj h
            injection hb2 with h1 h2
            have hlt := ih p.1 p.2 hb
            rw [← h2]
            simp only [List.length_cons]
            omega

/-- A successful `breakOnSep` means the separator occurs in the string. -/
theorem breakOnSep_infix (sep : List Char) :
    ∀ (s a b : List Char), breakOnSep sep s = some (a, b) → sep <:+: s := by
  intro s
  induction s with
  | nil =>
      intro a b h
      rw [breakOnSep] at h
      by_cases hp : sep.isPrefixOf ([] : List Char) = true
      · exact (List.isPrefixOf_iff_prefix.mp hp).isInfix
      · rw [if_neg hp] at h; cases h
  | cons c cs ih =>
      intro a b h
      rw [breakOnSep] at h
      by_cases hp : sep.isPrefixOf (c :: cs) = true
      · exact (List.isPrefixOf_iff_prefix.mp hp).isInfix
      · rw [if_neg hp] at h
        cases hb : breakOnSep sep cs with
        | none => rw [hb] at h; cases h
        | some p => exact List.infix_cons (ih p.1 p.2 (by rw [hb]))

/-- The fuel of `pySplitF` is irrelevant as long as it exceeds the string
length. -/
theorem pySplitF_fuel_irrel (x : Char) (xs : List Char) :
    ∀ (f₁ : Nat) (s : List Char) (f₂ : Nat), s.length < f₁ → s.length < f₂ →
      pySplitF (x :: xs) f₁ s = pySplitF (x :: xs) f₂ s := by
  intro f₁
  induction f₁ with
  | zero => intro s f₂ h1 _; exact absurd h1 (by omega)
  | succ f ih =>
      intro s f₂ h1 h2
      cases f₂ with
      | zero => exact absurd h2 (by omega)
      | succ g =>
          rw [pySplitF, pySplitF]
          cases hb : breakOnSep (x :: xs) s with
          | none => rfl
          | some p =>
              obtain ⟨a, b⟩ := p
              have hlt := breakOnSep_rest_length x xs s a b hb
              show a :: pySplitF (x :: xs) f b = a :: pySplitF (x :: xs) g b
              rw [ih b g (by omega) (by omega)]

/-- `pySplit` when the separator does not occur: one piece. -/
theorem pySplit_eq_single (x : Char) (xs s : List Char)
    (h : breakOnSep (x :: xs) s = none) : pySplit (x :: xs) s = [s] := by
  rw [pySplit, if_neg (by simp)]
  rw [pySplitF, h]

/-- `pySplit` at the leftmost separator occurrence: first piece, then split
the rest. -/
theorem pySplit_cons_eq (x : Char) (xs s a b : List Char)
    (h : breakOnSep (x :: xs) s = some (a, b)) :
    pySplit (x :: xs) s = a :: pySplit (x :: xs) b := by
  have hlt := breakOnSep_rest_length x xs s a b h
  rw [pySplit, if_neg (by simp), pySplitF, h, pySplit, if_neg (by simp)]
  show a :: pySplitF (x :: xs) s.length b = a :: pySplitF (x :: xs) (b.length + 1) b
  rw [pySplitF_fuel_irrel x xs s.length b (b.length + 1) (by omega) (by omega)]

/-- The character-level hard split is a partition: the chunks followed by
the remainder reassemble the input, and the remainder fits the limit. -/
theorem hardSplitF_flatten (max_length : Nat) (hm : 1 ≤ max_length) :
    ∀ (fuel : Nat) (s : List Char), s.length < fuel →
      (hardSplitF max_length fuel s).1.flatten ++ (hardSplitF max_length fuel s).2 = s ∧
      (hardSplitF max_length fuel s).2.length ≤ max_length := by
  intro fuel
  induction fuel with
  | zero => intro s h; exact absurd h (by omega)
  | succ f ih =>
      intro s hs
      rw [hardSplitF]
      by_cases hgt : s.length > max_length
      · rw [if_pos hgt]
        have hdrop : (s.drop max_length).length < f := by
          rw [List.length_drop]; omega
        obtain ⟨h1, h2⟩ := ih (s.drop max_length) hdrop
        refine ⟨?_, h2⟩
        rw [List.flatten_cons, List.append_assoc, h1, List.take_append_drop]
      · rw [if_neg hgt]
        refine ⟨by simp, ?_⟩
        show s.length ≤ max_length
        omega

/-- `dropWhile` of a list on which the predicate never holds. -/
theorem dropWhile_eq_self_of_none (p : Char → Bool) (s : List Char)
    (h : ∀ c ∈ s, p c = false) : s.dropWhile p = s := by
  cases s with
  | nil => rfl
  | cons c cs =>
      rw [List.dropWhile_cons, h c (List.mem_cons_self _ _)]
      simp

/-- Stripping a string with no whitespace characters changes nothing. -/
theorem pyStrip_eq_self (s : List Char)
    (h : ∀ c ∈ s, c.isWhitespace = false) : pyStrip s = s := by
  rw [pyStrip, dropWhile_eq_self_of_none _ _ h,
    dropWhile_eq_self_of_none _ _ (fun c hc => h c (List.mem_reverse.mp hc)),
    List.reverse_reverse]

/-- `String.join` over `String.mk` pieces is `String.mk` of the
flattening. -/
theorem string_join_map_mk (L : List (List Char)) :
    String.join (L.map String.mk) = String.mk L.flatten := by
  have aux : ∀ (M : List (List Char)) (acc : List Char),
      (M.map String.mk).foldl (fun r s => r ++ s) (String.mk acc) =
        String.mk (acc ++ M.flatten) := by
    intro M
    induction M with
    | nil => intro acc; simp
    | cons l ls ih =>
        intro acc
        rw [List.map_cons, List.foldl_cons]
        have : String.mk acc ++ String.mk l = String.mk (acc ++ l) := rfl
        rw [this, ih (acc ++ l), List.flatten_cons, List.append_assoc]
  have h0 : ("" : String) = String.mk [] := rfl
  rw [String.join, h0, aux L []]
  simp

/-- On a message with no whitespace at all (so no paragraph or sentence
separators), `_split_long_message` degrades to the pure character-level
split, and the concatenation of its parts reproduces the message exactly. -/
theorem splitCore_noWS_flatten (max_length : Nat) (hm : 1 ≤ max_length)
    (msg : List Char) (h : ∀ c ∈ msg, c.isWhitespace = false) :
    (splitCore max_length msg).flatten = msg := by
  rw [splitCore]
  by_cases hle : msg.length ≤ max_length
  · rw [if_pos hle]; simp
  · rw [if_neg hle]
    have hnl : breakOnSep [ '\n', '\n' ] msg = none := by
      cases hb : breakOnSep [ '\n', '\n' ] msg with
      | none => rfl
      | some p =>
          have hinf := breakOnSep_infix _ msg p.1 p.2 (by rw [hb])
          have : '\n' ∈ msg := hinf.sublist.mem (by simp)
          have := h '\n' this
          exact absurd this (by decide)

    have hdot : breakOnSep [ '.', ' ' ] msg = none := by
      cases hb : breakOnSep [ '.', ' ' ] msg with
      | none => rfl
      | some p =>
          have hinf := breakOnSep_infix _ msg p.1 p.2 (by rw [hb])
          have : ' ' ∈ msg := hinf.sublist.mem (by simp)
          have := h ' ' this
          exact absurd this (by decide)
    have hp1 : paragraphStep max_length ([], ([] : List Char)) msg =
        (pySplit [ '.', ' ' ] msg).foldl (sentenceStep max_length) ([], []) := by
      dsimp only [paragraphStep]
      rw [if_pos (show ([] : List Char).length + msg.length + 2 > max_length by
            simp only [List.length_nil]; omega)]
      rw [if_neg (show ¬(([] : List Char) ≠ []) by simp)]
    have hp2 : sentenceStep max_length ([], ([] : List Char)) msg =
        ((hardSplit max_length msg).1, (hardSplit max_length msg).2) := by
      dsimp only [sentenceStep]
      rw [if_pos (show ([] : List Char).length + msg.length + 2 > max_length by
            simp only [List.length_nil]; omega)]
      rw [if_neg (show ¬(([] : List Char) ≠ []) by simp)]
      simp
    rw [pySplit_eq_single _ _ _ hnl, List.foldl_cons, List.foldl_nil, hp1]
    rw [pySplit_eq_single _ _ _ hdot, List.foldl_cons, List.foldl_nil, hp2]
    dsimp only
    obtain ⟨hflat, _⟩ :=
      hardSplitF_flatten max_length hm (msg.length + 1) msg (by omega)
    have hflat2 : (hardSplit max_length msg).1.flatten ++
        (hardSplit max_length msg).2 = msg := hflat
    have hrest : ∀ c ∈ (hardSplit max_length msg).2, c.isWhitespace = false := by
      intro c hc
      refine h c ?_
      rw [← hflat2]
      exact List.mem_append_right _ hc
    rw [pyStrip_eq_self _ hrest]
    by_cases hnil : (hardSplit max_length msg).2 = []
    · rw [if_neg (by simp [hnil])]
      rw [hnil, List.append_nil] at hflat2
      exact hflat2
    · rw [if_pos hnil]
      rw [List.flatten_append, List.flatten_cons, List.flatten_nil,
        List.append_nil, hflat2]

/-- C7 counterexample: splitting the 3005-character message
`"a \n\n" ++ "x"*3001` at the 3000 limit yields the parts `"a"` and
`"x"*3001` — the trailing space of the first paragraph is stripped — so
re-inserting the one `"\n\n"` separator stripped by the split does not
reproduce the original text. -/
theorem c7_counterexample :
    split_long_message c7CounterMessage 3000 =
      ["a", String.mk (List.replicate 3001 'x')] ∧
    3000 < c7CounterMessage.length ∧
    "a" ++ "\n\n" ++ String.mk (List.replicate 3001 'x') ≠ c7CounterMessage := by
  have hdata : c7CounterMessage.toList =
      'a' :: ' ' :: '\n' :: '\n' :: List.replicate 3001 'x' := rfl
  have hxs_mem : ∀ c ∈ List.replicate 3001 'x', c = 'x' :=
    fun c hc => (List.mem_replicate.mp hc).2
  have hlen : ('a' :: ' ' :: '\n' :: '\n' :: List.replicate 3001 'x').length = 3005 := by
    rw [List.length_cons, List.length_cons, List.length_cons, List.length_cons,
      List.length_replicate]
  have hbreak : breakOnSep [ '\n', '\n' ]
      ('a' :: ' ' :: '\n' :: '\n' :: List.replicate 3001 'x') =
      some (['a', ' '], List.replicate 3001 'x') := rfl
  have hnl2 : breakOnSep [ '\n', '\n' ] (List.replicate 3001 'x') = none := by
    cases hb : breakOnSep [ '\n', '\n' ] (List.replicate 3001 'x') with
    | none => rfl
    | some p =>
        have hinf := breakOnSep_infix _ _ p.1 p.2 (by rw [hb])
        have hmem : '\n' ∈ List.replicate 3001 'x' := hinf.sublist.mem (by simp)
        exact absurd (hxs_mem '\n' hmem) (by decide)
  have hstrip : pyStrip (List.replicate 3001 'x') = List.replicate 3001 'x' :=
    pyStrip_eq_self _ (fun c hc => by rw [hxs_mem c hc]; decide)
  have hne : List.replicate 3001 'x' ≠ [] := by
    intro h0
    have h1 := congrArg List.length h0
    rw [List.length_replicate] at h1
    exact absurd h1 (by decide)
  have hstep1 : paragraphStep 3000 ([], []) ['a', ' '] = ([], ['a', ' ', '\n', '\n']) := by
    dsimp only [paragraphStep]
    rw [if_neg (by decide)]
    rfl
  have hstep2 : paragraphStep 3000 ([], ['a', ' ', '\n', '\n'])
      (List.replicate 3001 'x') = ([['a']], List.replicate 3001 'x') := by
    dsimp only [paragraphStep]
    rw [if_pos (show (['a', ' ', '\n', '\n'] : List Char).length +
          (List.replicate 3001 'x').length + 2 > 3000 by
        rw [List.length_replicate]; decide)]
    rw [if_pos (by decide)]
    rw [show pyStrip ['a', ' ', '\n', '\n'] = ['a'] from by decide]
    rfl
  refine ⟨?_, ?_, ?_⟩
  · rw [split_long_message, hdata, splitCore, if_neg (by rw [hlen]; omega)]
    rw [pySplit_cons_eq _ _ _ _ _ hbreak, pySplit_eq_single _ _ _ hnl2]
    rw [List.foldl_cons, List.foldl_cons, List.foldl_nil, hstep1, hstep2]
    dsimp only
    rw [hstrip, if_pos hne]
    rfl
  · show 3000 < c7CounterMessage.toList.length
    rw [hdata, hlen]
    omega
  · intro h
    have h2 := congrArg String.length h
    rw [String.length_append, String.length_append] at h2
    have e3 : (String.mk (List.replicate 3001 'x')).length = 3001 := by
      show (List.replicate 3001 'x').length = 3001
      exact List.length_replicate _ _
    have e4 : c7CounterMessage.length = 3005 := by
      show c7CounterMessage.toList.length = 3005
      rw [hdata, hlen]
    rw [e3, e4] at h2
    have e1 : ("a" : String).length = 1 := rfl
    have e2 : ("\n\n" : String).length = 2 := rfl
    rw [e1, e2] at h2
    exact absurd h2 (by decide)

/-- C7 as amended: `_split_long_message` returns a short message whole, and
in the pure character-level degradation case (a message with no whitespace,
hence no paragraph or sentence separators) the concatenation of the parts
reproduces the original text exactly; in general, however, parts are
whitespace-stripped at split points, so the reproduction is only exact up
to the whitespace and separator edits made at each split boundary. -/
theorem c7_split_degradation :
    (∀ (msg : String) (max_length : Nat), msg.length ≤ max_length →
       split_long_message msg max_length = [msg]) ∧
    (∀ (msg : String) (max_length : Nat), 1 ≤ max_length →
       (∀ c ∈ msg.toList, c.isWhitespace = false) →
       String.join (split_long_message msg max_length) = msg) := by
  constructor
  · intro msg max_length hle
    rw [split_long_message, splitCore,
      if_pos (show msg.toList.length ≤ max_length from hle)]
    rfl
  · intro msg max_length hm h
    rw [split_long_message, string_join_map_mk,
      splitCore_noWS_flatten max_length hm msg.toList h]
    rfl

/-- Witness for C7 as amended: a short message is returned whole, and a
7-character whitespace-free message hard-split at limit 3 reassembles
exactly. -/
theorem c7_split_degradation_witness :
    (("ab" : String).length ≤ 5 ∧ split_long_message "ab" 5 = ["ab"]) ∧
    (1 ≤ 3 ∧ (∀ c ∈ ("abcdefg" : String).toList, c.isWhitespace = false) ∧
      String.join (split_long_message "abcdefg" 3) = "abcdefg") :=
  ⟨⟨by decide, c7_split_degradation.1 "ab" 5 (by decide)⟩,
   ⟨by decide, by decide,
    c7_split_degradation.2 "abcdefg" 3 (by decide) (by decide)⟩⟩

/-- Delivering an appended batch of keys runs the first batch, then the
second from the resulting state. -/
theorem runMentionKeys_append (as bs : List String) :
    ∀ (s log : List String),
      runMentionKeys s log (as ++ bs) =
        runMentionKeys (runMentionKeys s log as).1
          (runMentionKeys s log as).2 bs := by
  induction as with
  | nil => intro s log; rfl
  | cons k ks ih =>
      intro s log
      rw [List.cons_append, runMentionKeys, runMentionKeys]
      exact ih _ _

/-- As long as at most 10000 keys have been delivered, no pruning occurs:
the dedup set and the response log both grow by exactly the fresh keys. -/
theorem runMentionKeys_no_prune :
    ∀ (ks s log : List String), s.length + ks.length ≤ 10000 →
      runMentionKeys s log ks =
        (s ++ freshKeys s ks, log ++ freshKeys s ks) := by
  intro ks
  induction ks with
  | nil => intro s log _; simp [runMentionKeys, freshKeys]
  | cons k ks ih =>
      intro s log h
      rw [runMentionKeys]
      by_cases hk : k ∈ s
      · rw [show handleMentionKey s k = (s, false) from by
          rw [handleMentionKey, if_pos hk]]
        show runMentionKeys s log ks = _
        rw [ih s log (by simp only [List.length_cons] at h; omega)]
        rw [freshKeys, if_pos hk]
      · have hh : handleMentionKey s k = (s ++ [k], true) := by
          rw [handleMentionKey, if_neg hk]
          dsimp only
          rw [if_neg (show ¬((s ++ [k]).length > 10000) by
            rw [List.length_append]
            simp only [List.length_cons, List.length_nil] at h ⊢
            omega)]
        rw [hh]
        show runMentionKeys (s ++ [k]) (log ++ [k]) ks = _
        rw [ih (s ++ [k]) (log ++ [k]) (by
          rw [List.length_append]
          simp only [List.length_cons, List.length_nil] at h ⊢
          omega)]
        rw [freshKeys, if_neg hk]
        simp [List.append_assoc]

/-- Pairwise distinct keys, all fresh for the dedup set, are all
responded to. -/
theorem freshKeys_of_fresh_nodup :
    ∀ (ks s : List String), ks.Nodup → (∀ x ∈ ks, x ∉ s) →
      freshKeys s ks = ks := by
  intro ks
  induction ks with
  | nil => intro s _ _; rfl
  | cons k ks ih =>
      intro s hnd hf
      rw [freshKeys, if_neg (hf k (List.mem_cons_self _ _))]
      rw [ih (s ++ [k]) (List.Nodup.of_cons hnd)]
      intro x hx
      rw [List.mem_append]
      rintro (hxs | hxk)
      · exact hf x (List.mem_cons_of_mem _ hx) hxs
      · rw [List.mem_singleton] at hxk
        exact (List.nodup_cons.mp hnd).1 (hxk ▸ hx)

/-- A key is answered by a pruning-free run exactly once if delivered and
fresh, and never if already resident. -/
theorem count_freshKeys (k : String) :
    ∀ (ks s : List String), (freshKeys s ks).count k =
      if k ∈ s then 0 else if k ∈ ks then 1 else 0 := by
  intro ks
  induction ks with
  | nil =>
      intro s
      by_cases hks : k ∈ s <;> simp [freshKeys, hks]
  | cons k' ks ih =>
      intro s
      rw [freshKeys]
      by_cases hk' : k' ∈ s
      · rw [if_pos hk', ih s]
        by_cases hks : k ∈ s
        · simp [hks]
        · have hiff : (k ∈ k' :: ks) ↔ k ∈ ks := by
            constructor
            · intro hm
              rcases List.mem_cons.mp hm with h1 | h1
              · exact absurd (h1 ▸ hk') hks
              · exact h1
            · exact List.mem_cons_of_mem _
          simp [hks, hiff]
      · rw [if_neg hk', List.count_cons, ih (s ++ [k'])]
        by_cases heq : k = k'
        · subst heq
          simp [hk', List.mem_append]
        · have h1 : (k ∈ s ++ [k']) ↔ k ∈ s := by
            simp [List.mem_append, heq]
          have h2 : (k ∈ k' :: ks) ↔ k ∈ ks := by
            simp [List.mem_cons, heq]
          by_cases hks : k ∈ s
          · simp [hks, h1, Ne.symm heq]
          · simp [hks, h1, h2, Ne.symm heq]

/-- The length of the i-th pruning-test key is `i + 4`, so the keys are
pairwise distinct. -/
theorem dedupKeyAt_length (i : Nat) : (dedupKeyAt i).length = i + 4 := by
  rw [dedupKeyAt, mkMessageKey, String.length_append, String.length_append,
    String.length_append, String.length_append]
  have h1 : (String.mk (List.replicate i 'c')).length = i := by
    show (List.replicate i 'c').length = i
    exact List.length_replicate _ _
  rw [h1]
  rfl

/-- The pruning-test keys are pairwise distinct. -/
theorem dedupKeyAt_injective : Function.Injective dedupKeyAt := by
  intro i j h
  have h2 := congrArg String.length h
  rw [dedupKeyAt_length, dedupKeyAt_length] at h2
  omega

set_option maxRecDepth 40000 in
/-- C4 counterexample: delivering key `dedupKeyAt 0`, then 10000 distinct
fresh keys (which pushes the dedup set to 10001 entries and triggers the
pruning that discards the 1000 oldest, including `dedupKeyAt 0`), then
`dedupKeyAt 0` again, produces two outbound responses for that key within
one process lifetime — not exactly one. -/
theorem c4_counterexample :
    ((runMentionKeys [] []
        ((dedupKeyAt 0 :: (List.range' 1 10000).map dedupKeyAt) ++
          [dedupKeyAt 0])).2).count (dedupKeyAt 0) = 2 ∧
    (2 : Nat) ≠ 1 := by
  refine ⟨?_, by decide⟩
  have hsplit : List.range' 1 10000 = List.range' 1 9999 ++ [10000] := by
    have h := @List.range'_concat 1 1 9999
    norm_num at h
    exact h
  have h0F : dedupKeyAt 0 ∉ (List.range' 1 9999).map dedupKeyAt := by
    intro hm
    obtain ⟨i, hi, heq⟩ := List.mem_map.mp hm
    have h2 := dedupKeyAt_injective heq
    have h3 := (List.mem_range'_1.mp hi).1
    omega
  have hnodup : (dedupKeyAt 0 :: (List.range' 1 9999).map dedupKeyAt).Nodup := by
    rw [List.nodup_cons]
    exact ⟨h0F, List.Nodup.map dedupKeyAt_injective (List.nodup_range' _ _)⟩
  have hA : runMentionKeys [] []
      (dedupKeyAt 0 :: (List.range' 1 9999).map dedupKeyAt) =
      (dedupKeyAt 0 :: (List.range' 1 9999).map dedupKeyAt,
       dedupKeyAt 0 :: (List.range' 1 9999).map dedupKeyAt) := by
    rw [runMentionKeys_no_prune _ [] [] (by
      simp [List.length_map, List.length_range'])]
    rw [freshKeys_of_fresh_nodup _ _ hnodup (fun x _ => List.not_mem_nil x)]
    simp
  have hgF : dedupKeyAt 10000 ∉
      dedupKeyAt 0 :: (List.range' 1 9999).map dedupKeyAt := by
    rw [List.mem_cons]
    rintro (heq | hm)
    · have h2 := dedupKeyAt_injective heq
      omega
    · obtain ⟨i, hi, heq⟩ := List.mem_map.mp hm
      have h2 := dedupKeyAt_injective heq
      have h3 := (List.mem_range'_1.mp hi).2
      omega
  have hlen1 : ((dedupKeyAt 0 :: (List.range' 1 9999).map dedupKeyAt) ++
      [dedupKeyAt 10000]).length = 10001 := by
    rw [List.length_append, List.length_cons, List.length_map,
      List.length_range']
    rfl
  have hg : handleMentionKey
      (dedupKeyAt 0 :: (List.range' 1 9999).map dedupKeyAt) (dedupKeyAt 10000) =
      (((dedupKeyAt 0 :: (List.range' 1 9999).map dedupKeyAt) ++
          [dedupKeyAt 10000]).drop 1000, true) := by
    rw [handleMentionKey, if_neg hgF]
    dsimp only
    rw [if_pos (by rw [hlen1]; omega)]
  have hk0s2 : dedupKeyAt 0 ∉
      ((dedupKeyAt 0 :: (List.range' 1 9999).map dedupKeyAt) ++
        [dedupKeyAt 10000]).drop 1000 := by
    rw [List.cons_append, show (1000 : Nat) = 999 + 1 from rfl,
      List.drop_succ_cons]
    intro hm
    have hm2 := List.Sublist.mem hm (List.drop_sublist _ _)
    rcases List.mem_append.mp hm2 with hm3 | hm3
    · exact h0F hm3
    · rw [List.mem_singleton] at hm3
      have h2 := dedupKeyAt_injective hm3
      omega
  have hlen2 : (((dedupKeyAt 0 :: (List.range' 1 9999).map dedupKeyAt) ++
      [dedupKeyAt 10000]).drop 1000).length = 9001 := by
    rw [List.length_drop, hlen1]
  have hk0b : handleMentionKey
      (((dedupKeyAt 0 :: (List.range' 1 9999).map dedupKeyAt) ++
          [dedupKeyAt 10000]).drop 1000) (dedupKeyAt 0) =
      ((((dedupKeyAt 0 :: (List.range' 1 9999).map dedupKeyAt) ++
          [dedupKeyAt 10000]).drop 1000) ++ [dedupKeyAt 0], true) := by
    rw [handleMentionKey, if_neg hk0s2]
    dsimp only
    rw [if_neg (by
      rw [List.length_append, hlen2, List.length_cons, List.length_nil]
      omega)]
  have hB : runMentionKeys
      (dedupKeyAt 0 :: (List.range' 1 9999).map dedupKeyAt)
      (dedupKeyAt 0 :: (List.range' 1 9999).map dedupKeyAt)
      (dedupKeyAt 10000 :: [dedupKeyAt 0]) =
      ((((dedupKeyAt 0 :: (List.range' 1 9999).map dedupKeyAt) ++
          [dedupKeyAt 10000]).drop 1000) ++ [dedupKeyAt 0],
       ((dedupKeyAt 0 :: (List.range' 1 9999).map dedupKeyAt) ++
          [dedupKeyAt 10000]) ++ [dedupKeyAt 0]) := by
    rw [runMentionKeys, hg]
    show runMentionKeys
        (((dedupKeyAt 0 :: (List.range' 1 9999).map dedupKeyAt) ++
            [dedupKeyAt 10000]).drop 1000)
        ((dedupKeyAt 0 :: (List.range' 1 9999).map dedupKeyAt) ++
          [dedupKeyAt 10000]) [dedupKeyAt 0] = _
    rw [runMentionKeys, hk0b]
    rfl
  rw [hsplit, List.map_append]
  rw [show (List.map dedupKeyAt [10000] : List String) = [dedupKeyAt 10000]
    from rfl]
  rw [show dedupKeyAt 0 ::
        ((List.range' 1 9999).map dedupKeyAt ++ [dedupKeyAt 10000]) =
      (dedupKeyAt 0 :: (List.range' 1 9999).map dedupKeyAt) ++
        [dedupKeyAt 10000] from rfl]
  rw [List.append_assoc, runMentionKeys_append, hA]
  show (runMentionKeys
      (dedupKeyAt 0 :: (List.range' 1 9999).map dedupKeyAt)
      (dedupKeyAt 0 :: (List.range' 1 9999).map dedupKeyAt)
      (dedupKeyAt 10000 :: [dedupKeyAt 0])).2.count (dedupKeyAt 0) = 2
  rw [hB]
  have h0g : dedupKeyAt 0 ∉ [dedupKeyAt 10000] := by
    rw [List.mem_singleton]
    intro heq
    have h2 := dedupKeyAt_injective heq
    omega
  rw [List.count_append, List.count_append, List.count_cons,
    List.count_eq_zero.mpr h0F, List.count_eq_zero.mpr h0g,
    List.count_singleton]
  simp

/-- C4 as amended: a key delivered while still resident in the dedup set is
detected as already processed and produces no response (both for mention
and DM events), and any delivery sequence of at most 10000 events — which
cannot trigger pruning — produces exactly one outbound response per
distinct key delivered; a key evicted by the pruning that fires once the
set exceeds 10000 entries can be processed again. -/
theorem c4_dedup_exactly_once :
    (∀ (s : List String) (k : String), k ∈ s →
       handleMentionKey s k = (s, false)) ∧
    (∀ (s : List String) (k : String), k ∈ s →
       handleDMKey s k = (s, false)) ∧
    (∀ (ks : List String) (k : String), ks.length ≤ 10000 →
       ((runMentionKeys [] [] ks).2).count k =
         if k ∈ ks then 1 else 0) := by
  refine ⟨?_, ?_, ?_⟩
  · intro s k h
    rw [handleMentionKey, if_pos h]
  · intro s k h
    rw [handleDMKey, if_pos h]
  · intro ks k h
    rw [runMentionKeys_no_prune ks [] [] (by simpa using h)]
    dsimp only
    rw [List.nil_append, count_freshKeys]
    simp

/-- Witness for C4 as amended: a resident key is skipped by both handlers,
and a short trace with a repeated key gets exactly one response for it. -/
theorem c4_dedup_exactly_once_witness :
    ("C_1_U" ∈ (["C_1_U"] : List String) ∧
      handleMentionKey ["C_1_U"] "C_1_U" = (["C_1_U"], false)) ∧
    ("C_1_U" ∈ (["C_1_U"] : List String) ∧
      handleDMKey ["C_1_U"] "C_1_U" = (["C_1_U"], false)) ∧
    ((["a", "b", "a"] : List String).length ≤ 10000 ∧
      ((runMentionKeys [] [] ["a", "b", "a"]).2).count "a" =
        if "a" ∈ (["a", "b", "a"] : List String) then 1 else 0) :=
  ⟨⟨by decide, c4_dedup_exactly_once.1 _ _ (by decide)⟩,
   ⟨by decide, c4_dedup_exactly_once.2.1 _ _ (by decide)⟩,
   ⟨by decide, c4_dedup_exactly_once.2.2 _ _ (by decide)⟩⟩

end Livia
